import Mathlib

set_option linter.unusedVariables false

/-!
# Verification of the Arethusa chained Feistel block cipher (`src/cbc.c`)

Shallow embedding of the cipher core: bytes are `Nat` values (byte
arithmetic is `Nat.xor`, which agrees with C `char` XOR at the byte level),
buffers are `List Nat`, and the stream loops of `encryptStream` /
`decryptStream` are structural recursions over the remaining input bytes.
I/O-error behaviour is modelled by an oracle giving each `write` call's
return value.
-/

namespace Arethusa

/-- `BLOCK_SIZE` from `cbc.c`. -/
def BLOCK_SIZE : Nat := 8

/-- `ROUNDS` from `cbc.c`. -/
def ROUNDS : Nat := 16

/-- The Feistel one-way function `f` of `cbc.c`: returns the key byte,
ignoring the data byte. -/
def f (r k : Nat) : Nat := k

/-- Byte-wise XOR of two buffers (the `bp[i] ^= lbp[i]` loops); truncates to
the shorter length, matching the loop bound `i < bytes`. -/
def xorBytes (a b : List Nat) : List Nat := List.zipWith (fun x y => x ^^^ y) a b

/-- One iteration of the inner loop of `encryptBlock` at half-index `i`
within round `r`: `t = bp[k+i]; bp[k+i] = bp[i] ^ f(bp[k+i], kp[4*r+i]);
bp[i] = t` with `k = 4`. -/
def encStep (kp : List Nat) (r : Nat) (bp : List Nat) (i : Nat) : List Nat :=
  let t := bp.getD (4 + i) 0
  let bp' := bp.set (4 + i) (bp.getD i 0 ^^^ f (bp.getD (4 + i) 0) (kp.getD (4 * r + i) 0))
  bp'.set i t

/-- `encryptBlock` of `cbc.c`: 16 rounds, each consuming the next 4 key
bytes in order (the `kp++` cursor visits `key[4*r + i]` in round `r`). -/
def encryptBlock (bp kp : List Nat) : List Nat :=
  (List.range ROUNDS).foldl (fun b r => (List.range 4).foldl (encStep kp r) b) bp

/-- One iteration of the inner loop of `decryptBlock` at half-index `i`,
with the key cursor at offset `c`: `t = bp[i]; bp[i] = bp[k+i] ^
f(bp[i], kp[c+i]); bp[k+i] = t`. -/
def decStep (kp : List Nat) (c : Nat) (bp : List Nat) (i : Nat) : List Nat :=
  let t := bp.getD i 0
  let bp' := bp.set i (bp.getD (4 + i) 0 ^^^ f (bp.getD i 0) (kp.getD (c + i) 0))
  bp'.set (4 + i) t

/-- `decryptBlock` of `cbc.c`: the key cursor starts at `(ROUNDS-1)*4 = 60`
and retreats by 4 per round (`kp += 4` inside the round, `kp -= 8` after),
so round `j` (0-based) reads `key[4*(15-j) + i]`. -/
def decryptBlock (bp kp : List Nat) : List Nat :=
  (List.range ROUNDS).foldl (fun b j => (List.range 4).foldl (decStep kp (4 * (15 - j))) b) bp

/-- Byte `i` of the fixed whitening mask that `encryptBlock` (and equally
`decryptBlock`) XORs into a block: the XOR of key bytes `8*j + i` over the
eight double-rounds `j`. Derived by symbolically executing the 16 Feistel
rounds of the source. -/
def maskByte (kp : List Nat) (i : Nat) : Nat :=
  (List.range 8).foldl (fun a j => a ^^^ kp.getD (8 * j + i) 0) 0

/-- The full 8-byte whitening mask of the block transforms. -/
def mask (kp : List Nat) : List Nat := (List.range 8).map (maskByte kp)

/-- The round function as the spec's §4.1 words it: "the identity of the key
byte (it ignores its first argument entirely)". Spec-side definition for
comparison with `f`. -/
def roundFunctionSpec (r k : Nat) : Nat := k

/-- One encryption round as the spec's §4.2 words it: block split into left
(indices 0..3) and right (4..7); `t = right[i]; right[i] = left[i] XOR
RoundFunction(right[i], key[r*4+i]); left[i] = t`, i.e. the new left half is
the old right half and the new right half mixes the key slice into the old
left half. Spec-side definition. -/
def encRoundSpec (kp : List Nat) (r : Nat) (b : List Nat) : List Nat :=
  let left := b.take 4
  let right := b.drop 4
  right ++ (List.range 4).map
    (fun i => left.getD i 0 ^^^ roundFunctionSpec (right.getD i 0) (kp.getD (4 * r + i) 0))

/-- The encrypt Block Transform as the spec words it: rounds 0..15 in order.
Spec-side definition, to be compared with `encryptBlock`. -/
def encryptBlockSpec (b kp : List Nat) : List Nat :=
  (List.range ROUNDS).foldl (fun bl r => encRoundSpec kp r bl) b

/-- The 4-byte key slice consumed by round `r` (spec §3, "Round Key View"). -/
def keySlice (kp : List Nat) (r : Nat) : List Nat := (kp.drop (4 * r)).take 4

/-- Byte `i` of round `r`'s key slice. -/
def sliceByte (kp : List Nat) (r i : Nat) : Nat := (keySlice kp r).getD i 0

/-- The mask `M(K)` as the claim words it: the left half is the byte-wise XOR
of the even-round key slices, the right half the XOR of the odd-round key
slices. Spec-side definition, to be compared with `mask`. -/
def maskSpec (kp : List Nat) : List Nat :=
  (List.range 4).map (fun i => (List.range 8).foldl (fun a j => a ^^^ sliceByte kp (2 * j) i) 0)
    ++ (List.range 4).map (fun i => (List.range 8).foldl (fun a j => a ^^^ sliceByte kp (2 * j + 1) i) 0)

/-- The data-processing loop of `encryptStream`, as a function of the chain
state `prev` (the last emitted ciphertext block, `lbp`) and the remaining
input bytes. A `read` delivers a full 8-byte chunk whenever at least 8 bytes
remain (matched by the 8-cons pattern): the chunk is XORed with `prev`,
transformed, and emitted, and the emitted block becomes the new chain state.
A final 1..7-byte chunk is XORed with `prev` over its length, zero-padded to
8 bytes (`memset`), transformed, and only its first `bytes` bytes are
emitted. Zero remaining bytes end the stream. Writes are assumed to succeed
(the no-I/O-error projection; see `encryptLoopWrites` for the error model). -/
def encryptBytes (kp : List Nat) : List Nat → List Nat → List Nat
  | prev, b0 :: b1 :: b2 :: b3 :: b4 :: b5 :: b6 :: b7 :: rest =>
      let c := encryptBlock (xorBytes [b0, b1, b2, b3, b4, b5, b6, b7] prev) kp
      c ++ encryptBytes kp c rest
  | _, [] => []
  | prev, input =>
      (encryptBlock (xorBytes input prev ++ List.replicate (8 - input.length) 0) kp).take
        input.length

/-- `encryptStream` of `cbc.c` under the no-I/O-error assumption, with the 8
random IV bytes modelled as the explicit input `iv`: the IV block is
transformed in place and emitted first, and (being `lbp` after the rotate)
seeds the chain state. -/
def encryptStream (iv kp plain : List Nat) : List Nat :=
  let civ := encryptBlock iv kp
  civ ++ encryptBytes kp civ plain

/-- The data-processing loop of `decryptStream`: for each full 8-byte chunk
the code copies it to `obp`, XORs `obp` with the chain state `lbp`, applies
`decryptBlock` to `obp` and emits it, then rotates so the raw (untransformed)
chunk becomes the new chain state. A final 1..7-byte chunk is XORed with the
chain state over its length, zero-padded, passed through `decryptBlock`, and
only its first `bytes` bytes are emitted. -/
def decryptBytes (kp : List Nat) : List Nat → List Nat → List Nat
  | prev, b0 :: b1 :: b2 :: b3 :: b4 :: b5 :: b6 :: b7 :: rest =>
      let chunk := [b0, b1, b2, b3, b4, b5, b6, b7]
      decryptBlock (xorBytes chunk prev) kp ++ decryptBytes kp chunk rest
  | _, [] => []
  | prev, input =>
      (decryptBlock (xorBytes input prev ++ List.replicate (8 - input.length) 0) kp).take
        input.length

/-- `decryptStream` of `cbc.c` under the no-I/O-error assumption: the first
read must deliver a full 8-byte encrypted IV (else the stream fails with -1,
modelled as `none`); that block is stored untransformed and unemitted as the
initial chain state. -/
def decryptStream (kp input : List Nat) : Option (List Nat) :=
  if input.length < 8 then none
  else some (decryptBytes kp (input.take 8) (input.drop 8))

/-- The final-partial-chunk handling as the spec's §4.4 decrypt direction
words it: zero-pad to 8 bytes, XOR with the previous block, apply no Block
Transform, and emit only the original number of bytes. Spec-side definition,
to be compared with the tail arm of `decryptBytes`. -/
def decryptTailNoTransform (prev chunk : List Nat) : List Nat :=
  ((xorBytes chunk prev) ++ List.replicate (8 - chunk.length) 0).take chunk.length

/-- The loop of `encryptStream` with each `write` call's return value given
by the oracle `wr` (call index `wi` counts every `write` of the run,
starting with the IV write at index 0). Result: the C return value (`-1` on
abort, else the byte count `n`) paired with the payloads passed to the
`write` calls the loop performed. A full-block write that does not return 8
aborts with -1 (`write(...) != BLOCK_SIZE`); a tail write that does not
return `bytes` aborts with -1. -/
def encryptLoopWrites (kp : List Nat) (wr : Nat → Int) :
    Nat → List Nat → List Nat → Nat → Int × List (List Nat)
  | wi, prev, b0 :: b1 :: b2 :: b3 :: b4 :: b5 :: b6 :: b7 :: rest, n =>
      let c := encryptBlock (xorBytes [b0, b1, b2, b3, b4, b5, b6, b7] prev) kp
      if wr wi ≠ 8 then (-1, [c])
      else
        let r := encryptLoopWrites kp wr (wi + 1) c rest (n + 8)
        (r.1, c :: r.2)
  | _, _, [], n => ((n : Int), [])
  | wi, prev, input, n =>
      let c := (encryptBlock (xorBytes input prev ++ List.replicate (8 - input.length) 0) kp).take
        input.length
      if wr wi ≠ (input.length : Int) then (-1, [c])
      else (((n + input.length : Nat) : Int), [c])

/-- `encryptStream` of `cbc.c` with its I/O modelled: `openOk` is whether
`open(PATH_RANDOM)` succeeded, `ivRead` the bytes the entropy `read`
returned, and `wr` the write-result oracle. If the source cannot be opened
or the read does not deliver exactly 8 bytes, the function returns -1 having
performed no write. Otherwise the encrypted IV is written — the return value
of that first `write` call (index 0) is not inspected by the code — and the
loop runs with write indices from 1. -/
def encryptStreamWrites (openOk : Bool) (ivRead kp plain : List Nat) (wr : Nat → Int) :
    Int × List (List Nat) :=
  if openOk = false ∨ ivRead.length ≠ 8 then (-1, [])
  else
    let civ := encryptBlock ivRead kp
    let r := encryptLoopWrites kp wr 1 civ plain 0
    (r.1, civ :: r.2)

/-- The loop of `decryptStream` with write results from the oracle `wr`. A
full-block write aborts only when it returns -1 (`write(...) == -1` in the
source); the tail write aborts when it does not return `bytes`. -/
def decryptLoopWrites (kp : List Nat) (wr : Nat → Int) :
    Nat → List Nat → List Nat → Nat → Int × List (List Nat)
  | wi, prev, b0 :: b1 :: b2 :: b3 :: b4 :: b5 :: b6 :: b7 :: rest, n =>
      let chunk := [b0, b1, b2, b3, b4, b5, b6, b7]
      let ob := decryptBlock (xorBytes chunk prev) kp
      if wr wi = -1 then (-1, [ob])
      else
        let r := decryptLoopWrites kp wr (wi + 1) chunk rest (n + 8)
        (r.1, ob :: r.2)
  | _, _, [], n => ((n : Int), [])
  | wi, prev, input, n =>
      let p := (decryptBlock (xorBytes input prev ++ List.replicate (8 - input.length) 0) kp).take
        input.length
      if wr wi ≠ (input.length : Int) then (-1, [p])
      else (((n + input.length : Nat) : Int), [p])

/-- `decryptStream` of `cbc.c` with its writes modelled by the oracle `wr`:
if the first read cannot deliver a full 8-byte encrypted IV the function
returns -1 with no write performed; otherwise the loop runs with write
indices from 0. -/
def decryptStreamWrites (kp input : List Nat) (wr : Nat → Int) : Int × List (List Nat) :=
  if input.length < 8 then (-1, [])
  else decryptLoopWrites kp wr 0 (input.take 8) (input.drop 8) 0

/-- Outcome of `main`'s argument handling: print usage, reject the key
length (`return 0` before any stream function is called, hence zero stream
I/O), or run the selected stream operation with the selected key. -/
inductive MainOutcome where
  | usage : MainOutcome
  | keyLengthError : MainOutcome
  | run : Bool → List Char → MainOutcome
deriving DecidableEq

/-- The flag loop of `main`: `while (--argc && *(argp = *++argv) == '-')`,
with `argp` the last argument examined when the loop exits. Arguments are
modelled as `List Char` (C strings); reading `argp[1]` of a 1-character
string yields the terminating NUL. Sets `is_decrypting` when the flag
character is `d`. -/
def flagLoop : Nat → List (List Char) → List Char → Bool → Bool × List Char
  | 0, _, argp, d => (d, argp)
  | 1, _, argp, d => (d, argp)
  | _ + 2, [], argp, d => (d, argp)
  | argc + 2, a :: rest, _, d =>
      if a.headD '\x00' = '-' then
        flagLoop (argc + 1) rest a (if a.getD 1 '\x00' = 'd' then true else d)
      else (d, a)

/-- `main` of `cbc.c` up to the point where a stream operation starts:
argument-count check, flag loop, then the key-length check
`strlen(kp) != (BLOCK_SIZE/2) * ROUNDS`. -/
def mainModel (argv : List (List Char)) : MainOutcome :=
  if argv.length < 2 ∨ 3 < argv.length then MainOutcome.usage
  else
    let fl := flagLoop argv.length (argv.drop 1) [] false
    if fl.2.length ≠ 64 then MainOutcome.keyLengthError
    else MainOutcome.run fl.1 fl.2

/-- Concrete key for counterexamples: byte 1 followed by 63 zero bytes (its
whitening mask is `[1,0,0,0,0,0,0,0]`). -/
def cexKey : List Nat := 1 :: List.replicate 63 0


/-!
## Helper lemmas

Symbolic characterization of the block transforms: because `f` ignores its
data argument, the sixteen Feistel rounds collapse to a single byte-wise XOR
with the fixed `mask` of the key.
-/

theorem range4_eq : List.range 4 = [0, 1, 2, 3] := rfl

theorem range8_eq : List.range 8 = [0, 1, 2, 3, 4, 5, 6, 7] := rfl

theorem range16_eq : List.range ROUNDS = [0,1,2,3,4,5,6,7,8,9,10,11,12,13,14,15] := rfl

theorem xor_left_comm (a b c : Nat) : a ^^^ (b ^^^ c) = b ^^^ (a ^^^ c) := by
  rw [← Nat.xor_assoc, Nat.xor_comm a b, Nat.xor_assoc]

theorem mask_eq (kp : List Nat) :
    mask kp = [maskByte kp 0, maskByte kp 1, maskByte kp 2, maskByte kp 3,
               maskByte kp 4, maskByte kp 5, maskByte kp 6, maskByte kp 7] := rfl

set_option maxRecDepth 8000 in
set_option maxHeartbeats 1000000 in
theorem encryptBlock_eq_mask (a0 a1 a2 a3 a4 a5 a6 a7 : Nat) (kp : List Nat) :
    encryptBlock [a0,a1,a2,a3,a4,a5,a6,a7] kp = xorBytes [a0,a1,a2,a3,a4,a5,a6,a7] (mask kp) := by
  simp [encryptBlock, encStep, f, xorBytes, mask, maskByte, range4_eq, range8_eq, range16_eq,
        List.foldl, Nat.xor_assoc, Nat.xor_comm, xor_left_comm, Nat.zero_xor]

set_option maxRecDepth 8000 in
set_option maxHeartbeats 1000000 in
theorem decryptBlock_eq_mask (a0 a1 a2 a3 a4 a5 a6 a7 : Nat) (kp : List Nat) :
    decryptBlock [a0,a1,a2,a3,a4,a5,a6,a7] kp = xorBytes [a0,a1,a2,a3,a4,a5,a6,a7] (mask kp) := by
  simp [decryptBlock, decStep, f, xorBytes, mask, maskByte, range4_eq, range8_eq, range16_eq,
        List.foldl, Nat.xor_assoc, Nat.xor_comm, xor_left_comm, Nat.zero_xor]

theorem exists_cons8 (l : List Nat) (h : 8 ≤ l.length) :
    ∃ b0 b1 b2 b3 b4 b5 b6 b7 rest,
      l = b0 :: b1 :: b2 :: b3 :: b4 :: b5 :: b6 :: b7 :: rest := by
  rcases l with _ | ⟨b0, _ | ⟨b1, _ | ⟨b2, _ | ⟨b3, _ | ⟨b4, _ | ⟨b5, _ | ⟨b6, _ | ⟨b7, rest⟩⟩⟩⟩⟩⟩⟩⟩ <;>
    simp_all

theorem exists8 (l : List Nat) (h : l.length = 8) :
    ∃ b0 b1 b2 b3 b4 b5 b6 b7, l = [b0, b1, b2, b3, b4, b5, b6, b7] := by
  obtain ⟨b0, b1, b2, b3, b4, b5, b6, b7, rest, rfl⟩ := exists_cons8 l (by omega)
  simp at h
  exact ⟨b0, b1, b2, b3, b4, b5, b6, b7, by simp [h]⟩

theorem foldl_preserve_length {α : Type} (g : List Nat → α → List Nat)
    (h : ∀ b x, (g b x).length = b.length) :
    ∀ (l : List α) (b : List Nat), (l.foldl g b).length = b.length := by
  intro l
  induction l with
  | nil => intro b; rfl
  | cons x xs ih => intro b; rw [List.foldl_cons, ih, h]

theorem encryptBlock_length (bp kp : List Nat) : (encryptBlock bp kp).length = bp.length := by
  unfold encryptBlock
  exact foldl_preserve_length _
    (fun b r => foldl_preserve_length _ (fun b' i => by simp [encStep]) _ b) _ _

theorem decryptBlock_length (bp kp : List Nat) : (decryptBlock bp kp).length = bp.length := by
  unfold decryptBlock
  exact foldl_preserve_length _
    (fun b j => foldl_preserve_length _ (fun b' i => by simp [decStep]) _ b) _ _

/-- The tail arm of `decryptBytes`, available whenever 1..7 bytes remain. -/
theorem decryptBytes_tail (kp prev input : List Nat) (h0 : input ≠ []) (h8 : input.length < 8) :
    decryptBytes kp prev input
      = (decryptBlock (xorBytes input prev ++ List.replicate (8 - input.length) 0) kp).take
          input.length := by
  rcases input with _ | ⟨p0, _ | ⟨p1, _ | ⟨p2, _ | ⟨p3, _ | ⟨p4, _ | ⟨p5, _ | ⟨p6, _ | ⟨p7, r⟩⟩⟩⟩⟩⟩⟩⟩
  · exact absurd rfl h0
  · rfl
  · rfl
  · rfl
  · rfl
  · rfl
  · rfl
  · rfl
  · exact absurd h8 (by simp)

/-- The tail arm of `encryptBytes`, available whenever 1..7 bytes remain. -/
theorem encryptBytes_tail (kp prev input : List Nat) (h0 : input ≠ []) (h8 : input.length < 8) :
    encryptBytes kp prev input
      = (encryptBlock (xorBytes input prev ++ List.replicate (8 - input.length) 0) kp).take
          input.length := by
  rcases input with _ | ⟨p0, _ | ⟨p1, _ | ⟨p2, _ | ⟨p3, _ | ⟨p4, _ | ⟨p5, _ | ⟨p6, _ | ⟨p7, r⟩⟩⟩⟩⟩⟩⟩⟩
  · exact absurd rfl h0
  · rfl
  · rfl
  · rfl
  · rfl
  · rfl
  · rfl
  · rfl
  · exact absurd h8 (by simp)

theorem replicate1_eq : List.replicate 1 (0 : Nat) = [0] := rfl

theorem replicate2_eq : List.replicate 2 (0 : Nat) = [0, 0] := rfl

theorem replicate3_eq : List.replicate 3 (0 : Nat) = [0, 0, 0] := rfl

theorem replicate4_eq : List.replicate 4 (0 : Nat) = [0, 0, 0, 0] := rfl

theorem replicate5_eq : List.replicate 5 (0 : Nat) = [0, 0, 0, 0, 0] := rfl

theorem replicate6_eq : List.replicate 6 (0 : Nat) = [0, 0, 0, 0, 0, 0] := rfl

theorem replicate7_eq : List.replicate 7 (0 : Nat) = [0, 0, 0, 0, 0, 0, 0] := rfl

theorem take1_lit (x0 x1 x2 x3 x4 x5 x6 x7 : Nat) :
    List.take 1 [x0,x1,x2,x3,x4,x5,x6,x7] = [x0] := rfl

theorem take2_lit (x0 x1 x2 x3 x4 x5 x6 x7 : Nat) :
    List.take 2 [x0,x1,x2,x3,x4,x5,x6,x7] = [x0,x1] := rfl

theorem take3_lit (x0 x1 x2 x3 x4 x5 x6 x7 : Nat) :
    List.take 3 [x0,x1,x2,x3,x4,x5,x6,x7] = [x0,x1,x2] := rfl

theorem take4_lit (x0 x1 x2 x3 x4 x5 x6 x7 : Nat) :
    List.take 4 [x0,x1,x2,x3,x4,x5,x6,x7] = [x0,x1,x2,x3] := rfl

theorem take5_lit (x0 x1 x2 x3 x4 x5 x6 x7 : Nat) :
    List.take 5 [x0,x1,x2,x3,x4,x5,x6,x7] = [x0,x1,x2,x3,x4] := rfl

theorem take6_lit (x0 x1 x2 x3 x4 x5 x6 x7 : Nat) :
    List.take 6 [x0,x1,x2,x3,x4,x5,x6,x7] = [x0,x1,x2,x3,x4,x5] := rfl

theorem take7_lit (x0 x1 x2 x3 x4 x5 x6 x7 : Nat) :
    List.take 7 [x0,x1,x2,x3,x4,x5,x6,x7] = [x0,x1,x2,x3,x4,x5,x6] := rfl

set_option maxHeartbeats 2000000 in
theorem tail_roundtrip (kp : List Nat) (v0 v1 v2 v3 v4 v5 v6 v7 : Nat) (plain : List Nat)
    (h0 : plain ≠ []) (h8 : plain.length < 8) :
    decryptBytes kp [v0,v1,v2,v3,v4,v5,v6,v7]
        (encryptBytes kp [v0,v1,v2,v3,v4,v5,v6,v7] plain) = plain := by
  rcases plain with _ | ⟨p0, _ | ⟨p1, _ | ⟨p2, _ | ⟨p3, _ | ⟨p4, _ | ⟨p5, _ | ⟨p6, _ | ⟨p7, r⟩⟩⟩⟩⟩⟩⟩⟩
  · exact absurd rfl h0
  · simp [encryptBytes_tail, decryptBytes_tail, xorBytes, encryptBlock_eq_mask,
          decryptBlock_eq_mask, mask_eq, replicate7_eq, take1_lit,
          Nat.xor_assoc, Nat.xor_comm, xor_left_comm, Nat.xor_self, Nat.xor_zero, Nat.zero_xor,
          Nat.xor_cancel_left, Nat.xor_cancel_right]
  · simp [encryptBytes_tail, decryptBytes_tail, xorBytes, encryptBlock_eq_mask,
          decryptBlock_eq_mask, mask_eq, replicate6_eq, take2_lit,
          Nat.xor_assoc, Nat.xor_comm, xor_left_comm, Nat.xor_self, Nat.xor_zero, Nat.zero_xor,
          Nat.xor_cancel_left, Nat.xor_cancel_right]
  · simp [encryptBytes_tail, decryptBytes_tail, xorBytes, encryptBlock_eq_mask,
          decryptBlock_eq_mask, mask_eq, replicate5_eq, take3_lit,
          Nat.xor_assoc, Nat.xor_comm, xor_left_comm, Nat.xor_self, Nat.xor_zero, Nat.zero_xor,
          Nat.xor_cancel_left, Nat.xor_cancel_right]
  · simp [encryptBytes_tail, decryptBytes_tail, xorBytes, encryptBlock_eq_mask,
          decryptBlock_eq_mask, mask_eq, replicate4_eq, take4_lit,
          Nat.xor_assoc, Nat.xor_comm, xor_left_comm, Nat.xor_self, Nat.xor_zero, Nat.zero_xor,
          Nat.xor_cancel_left, Nat.xor_cancel_right]
  · simp [encryptBytes_tail, decryptBytes_tail, xorBytes, encryptBlock_eq_mask,
          decryptBlock_eq_mask, mask_eq, replicate3_eq, take5_lit,
          Nat.xor_assoc, Nat.xor_comm, xor_left_comm, Nat.xor_self, Nat.xor_zero, Nat.zero_xor,
          Nat.xor_cancel_left, Nat.xor_cancel_right]
  · simp [encryptBytes_tail, decryptBytes_tail, xorBytes, encryptBlock_eq_mask,
          decryptBlock_eq_mask, mask_eq, replicate2_eq, take6_lit,
          Nat.xor_assoc, Nat.xor_comm, xor_left_comm, Nat.xor_self, Nat.xor_zero, Nat.zero_xor,
          Nat.xor_cancel_left, Nat.xor_cancel_right]
  · simp [encryptBytes_tail, decryptBytes_tail, xorBytes, encryptBlock_eq_mask,
          decryptBlock_eq_mask, mask_eq, replicate1_eq, take7_lit,
          Nat.xor_assoc, Nat.xor_comm, xor_left_comm, Nat.xor_self, Nat.xor_zero, Nat.zero_xor,
          Nat.xor_cancel_left, Nat.xor_cancel_right]
  · exact absurd h8 (by simp)

set_option maxHeartbeats 1000000 in
theorem encBlock_lit (kp : List Nat) (b0 b1 b2 b3 b4 b5 b6 b7 v0 v1 v2 v3 v4 v5 v6 v7 : Nat) :
    encryptBlock (xorBytes [b0,b1,b2,b3,b4,b5,b6,b7] [v0,v1,v2,v3,v4,v5,v6,v7]) kp =
      [b0 ^^^ (v0 ^^^ maskByte kp 0), b1 ^^^ (v1 ^^^ maskByte kp 1),
       b2 ^^^ (v2 ^^^ maskByte kp 2), b3 ^^^ (v3 ^^^ maskByte kp 3),
       b4 ^^^ (v4 ^^^ maskByte kp 4), b5 ^^^ (v5 ^^^ maskByte kp 5),
       b6 ^^^ (v6 ^^^ maskByte kp 6), b7 ^^^ (v7 ^^^ maskByte kp 7)] := by
  simp [xorBytes, encryptBlock_eq_mask, mask_eq, Nat.xor_assoc]

set_option maxHeartbeats 1000000 in
theorem decBlock_unwhiten (kp : List Nat) (b0 b1 b2 b3 b4 b5 b6 b7 v0 v1 v2 v3 v4 v5 v6 v7 : Nat) :
    decryptBlock
      (xorBytes
        [b0 ^^^ (v0 ^^^ maskByte kp 0), b1 ^^^ (v1 ^^^ maskByte kp 1),
         b2 ^^^ (v2 ^^^ maskByte kp 2), b3 ^^^ (v3 ^^^ maskByte kp 3),
         b4 ^^^ (v4 ^^^ maskByte kp 4), b5 ^^^ (v5 ^^^ maskByte kp 5),
         b6 ^^^ (v6 ^^^ maskByte kp 6), b7 ^^^ (v7 ^^^ maskByte kp 7)]
        [v0,v1,v2,v3,v4,v5,v6,v7]) kp = [b0,b1,b2,b3,b4,b5,b6,b7] := by
  simp [xorBytes, decryptBlock_eq_mask, mask_eq, Nat.xor_assoc, Nat.xor_comm, xor_left_comm,
        Nat.xor_self, Nat.xor_zero, Nat.zero_xor, Nat.xor_cancel_left, Nat.xor_cancel_right]

set_option maxHeartbeats 2000000 in
theorem decryptBytes_encryptBytes (kp plain prev : List Nat) (hp : prev.length = 8) :
    decryptBytes kp prev (encryptBytes kp prev plain) = plain := by
  obtain ⟨v0, v1, v2, v3, v4, v5, v6, v7, rfl⟩ := exists8 prev hp
  by_cases h8 : 8 ≤ plain.length
  · obtain ⟨b0, b1, b2, b3, b4, b5, b6, b7, rest, hpl⟩ := exists_cons8 plain h8
    have hlen : plain.length = rest.length + 8 := by rw [hpl]; simp
    have ih := fun (c : List Nat) (hc : c.length = 8) => decryptBytes_encryptBytes kp rest c hc
    rw [hpl]
    show decryptBytes kp [v0,v1,v2,v3,v4,v5,v6,v7]
        (encryptBlock (xorBytes [b0,b1,b2,b3,b4,b5,b6,b7] [v0,v1,v2,v3,v4,v5,v6,v7]) kp ++
          encryptBytes kp
            (encryptBlock (xorBytes [b0,b1,b2,b3,b4,b5,b6,b7] [v0,v1,v2,v3,v4,v5,v6,v7]) kp) rest)
      = b0 :: b1 :: b2 :: b3 :: b4 :: b5 :: b6 :: b7 :: rest
    rw [encBlock_lit]
    show decryptBlock
        (xorBytes
          [b0 ^^^ (v0 ^^^ maskByte kp 0), b1 ^^^ (v1 ^^^ maskByte kp 1),
           b2 ^^^ (v2 ^^^ maskByte kp 2), b3 ^^^ (v3 ^^^ maskByte kp 3),
           b4 ^^^ (v4 ^^^ maskByte kp 4), b5 ^^^ (v5 ^^^ maskByte kp 5),
           b6 ^^^ (v6 ^^^ maskByte kp 6), b7 ^^^ (v7 ^^^ maskByte kp 7)]
          [v0,v1,v2,v3,v4,v5,v6,v7]) kp ++
        decryptBytes kp _ (encryptBytes kp _ rest)
      = b0 :: b1 :: b2 :: b3 :: b4 :: b5 :: b6 :: b7 :: rest
    rw [decBlock_unwhiten, ih _ (by simp)]
    simp
  · by_cases h0 : plain = []
    · subst h0; rfl
    · exact tail_roundtrip kp v0 v1 v2 v3 v4 v5 v6 v7 plain h0 (by omega)
termination_by plain.length
decreasing_by omega


set_option maxHeartbeats 1000000 in
theorem maskSpec_eq_mask (kp : List Nat) : maskSpec kp = mask kp := by
  simp [maskSpec, mask, maskByte, sliceByte, keySlice, range4_eq, range8_eq, List.foldl,
        List.getD_eq_getElem?_getD, List.getElem?_take, List.getElem?_drop]

theorem encryptBytes_length (kp plain prev : List Nat) (hp : prev.length = 8) :
    (encryptBytes kp prev plain).length = plain.length := by
  by_cases h8 : 8 ≤ plain.length
  · obtain ⟨b0, b1, b2, b3, b4, b5, b6, b7, rest, hpl⟩ := exists_cons8 plain h8
    have hlen : plain.length = rest.length + 8 := by rw [hpl]; simp
    have hc : (encryptBlock (xorBytes [b0,b1,b2,b3,b4,b5,b6,b7] prev) kp).length = 8 := by
      rw [encryptBlock_length]
      simp [xorBytes, hp]
    have ih := encryptBytes_length kp rest
        (encryptBlock (xorBytes [b0,b1,b2,b3,b4,b5,b6,b7] prev) kp) hc
    rw [hpl]
    show (encryptBlock (xorBytes [b0,b1,b2,b3,b4,b5,b6,b7] prev) kp ++
        encryptBytes kp (encryptBlock (xorBytes [b0,b1,b2,b3,b4,b5,b6,b7] prev) kp) rest).length
      = (b0 :: b1 :: b2 :: b3 :: b4 :: b5 :: b6 :: b7 :: rest).length
    rw [List.length_append, hc, ih]
    simp
    omega
  · by_cases h0 : plain = []
    · subst h0; rfl
    · rw [encryptBytes_tail kp prev plain h0 (by omega)]
      rw [List.length_take, encryptBlock_length]
      simp [xorBytes, List.length_zipWith, hp]
      omega
termination_by plain.length
decreasing_by omega


set_option maxRecDepth 8000 in
set_option maxHeartbeats 2000000 in
theorem encryptBlockSpec_lit (a0 a1 a2 a3 a4 a5 a6 a7 : Nat) (kp : List Nat) :
    encryptBlockSpec [a0,a1,a2,a3,a4,a5,a6,a7] kp = encryptBlock [a0,a1,a2,a3,a4,a5,a6,a7] kp := by
  simp [encryptBlockSpec, encRoundSpec, roundFunctionSpec, encryptBlock_eq_mask, xorBytes,
        mask_eq, maskByte, range4_eq, range8_eq, range16_eq, List.foldl,
        Nat.xor_assoc, Nat.xor_comm, xor_left_comm, Nat.zero_xor]


theorem encryptLoopWrites_tail (kp : List Nat) (wr : Nat → Int) (wi : Nat) (prev input : List Nat)
    (n : Nat) (h0 : input ≠ []) (h8 : input.length < 8) :
    encryptLoopWrites kp wr wi prev input n =
      if wr wi ≠ (input.length : Int) then
        (-1, [(encryptBlock (xorBytes input prev ++ List.replicate (8 - input.length) 0) kp).take
          input.length])
      else (((n + input.length : Nat) : Int),
        [(encryptBlock (xorBytes input prev ++ List.replicate (8 - input.length) 0) kp).take
          input.length]) := by
  rcases input with _ | ⟨p0, _ | ⟨p1, _ | ⟨p2, _ | ⟨p3, _ | ⟨p4, _ | ⟨p5, _ | ⟨p6, _ | ⟨p7, r⟩⟩⟩⟩⟩⟩⟩⟩
  · exact absurd rfl h0
  · rfl
  · rfl
  · rfl
  · rfl
  · rfl
  · rfl
  · rfl
  · exact absurd h8 (by simp)

theorem decryptLoopWrites_tail (kp : List Nat) (wr : Nat → Int) (wi : Nat) (prev input : List Nat)
    (n : Nat) (h0 : input ≠ []) (h8 : input.length < 8) :
    decryptLoopWrites kp wr wi prev input n =
      if wr wi ≠ (input.length : Int) then
        (-1, [(decryptBlock (xorBytes input prev ++ List.replicate (8 - input.length) 0) kp).take
          input.length])
      else (((n + input.length : Nat) : Int),
        [(decryptBlock (xorBytes input prev ++ List.replicate (8 - input.length) 0) kp).take
          input.length]) := by
  rcases input with _ | ⟨p0, _ | ⟨p1, _ | ⟨p2, _ | ⟨p3, _ | ⟨p4, _ | ⟨p5, _ | ⟨p6, _ | ⟨p7, r⟩⟩⟩⟩⟩⟩⟩⟩
  · exact absurd rfl h0
  · rfl
  · rfl
  · rfl
  · rfl
  · rfl
  · rfl
  · rfl
  · exact absurd h8 (by simp)

theorem encryptLoopWrites_block_abort (kp : List Nat) (wr : Nat → Int) (wi : Nat)
    (prev input : List Nat) (n : Nat) (h8 : 8 ≤ input.length) (hw : wr wi ≠ 8) :
    (encryptLoopWrites kp wr wi prev input n).1 = -1 ∧
      (encryptLoopWrites kp wr wi prev input n).2.length = 1 := by
  obtain ⟨b0, b1, b2, b3, b4, b5, b6, b7, rest, rfl⟩ := exists_cons8 input h8
  simp [encryptLoopWrites, hw]

theorem decryptLoopWrites_block_abort (kp : List Nat) (wr : Nat → Int) (wi : Nat)
    (prev input : List Nat) (n : Nat) (h8 : 8 ≤ input.length) (hw : wr wi = -1) :
    (decryptLoopWrites kp wr wi prev input n).1 = -1 ∧
      (decryptLoopWrites kp wr wi prev input n).2.length = 1 := by
  obtain ⟨b0, b1, b2, b3, b4, b5, b6, b7, rest, rfl⟩ := exists_cons8 input h8
  simp [decryptLoopWrites, hw]

theorem encryptLoopWrites_congr (kp : List Nat) (wr wr' : Nat → Int) (input : List Nat)
    (wi : Nat) (prev : List Nat) (n : Nat) (h : ∀ j, wi ≤ j → wr j = wr' j) :
    encryptLoopWrites kp wr wi prev input n = encryptLoopWrites kp wr' wi prev input n := by
  by_cases h8 : 8 ≤ input.length
  · obtain ⟨b0, b1, b2, b3, b4, b5, b6, b7, rest, hpl⟩ := exists_cons8 input h8
    have hlen : input.length = rest.length + 8 := by rw [hpl]; simp
    have ih := encryptLoopWrites_congr kp wr wr' rest (wi + 1)
        (encryptBlock (xorBytes [b0,b1,b2,b3,b4,b5,b6,b7] prev) kp) (n + 8)
        (fun j hj => h j (by omega))
    rw [hpl]
    show (if wr wi ≠ 8 then ((-1 : Int), [encryptBlock (xorBytes [b0,b1,b2,b3,b4,b5,b6,b7] prev) kp])
          else
            ((encryptLoopWrites kp wr (wi + 1)
                (encryptBlock (xorBytes [b0,b1,b2,b3,b4,b5,b6,b7] prev) kp) rest (n + 8)).1,
              encryptBlock (xorBytes [b0,b1,b2,b3,b4,b5,b6,b7] prev) kp ::
                (encryptLoopWrites kp wr (wi + 1)
                  (encryptBlock (xorBytes [b0,b1,b2,b3,b4,b5,b6,b7] prev) kp) rest (n + 8)).2)) =
        (if wr' wi ≠ 8 then ((-1 : Int), [encryptBlock (xorBytes [b0,b1,b2,b3,b4,b5,b6,b7] prev) kp])
         else
           ((encryptLoopWrites kp wr' (wi + 1)
               (encryptBlock (xorBytes [b0,b1,b2,b3,b4,b5,b6,b7] prev) kp) rest (n + 8)).1,
             encryptBlock (xorBytes [b0,b1,b2,b3,b4,b5,b6,b7] prev) kp ::
               (encryptLoopWrites kp wr' (wi + 1)
                 (encryptBlock (xorBytes [b0,b1,b2,b3,b4,b5,b6,b7] prev) kp) rest (n + 8)).2))
    rw [h wi (by omega), ih]
  · by_cases h0 : input = []
    · subst h0; rfl
    · rw [encryptLoopWrites_tail kp wr wi prev input n h0 (by omega),
          encryptLoopWrites_tail kp wr' wi prev input n h0 (by omega), h wi (by omega)]
termination_by input.length
decreasing_by omega


/-- Claim C1: for every byte sequence `P` (any length, including 0) and every
64-byte key `K`, decrypting the encryption of `P` — with the 8 random IV
bytes modelled as an arbitrary input — reproduces `P` exactly:
`Decrypt(Encrypt(P, K), K) = P`. -/
theorem C1_stream_roundtrip (kp iv plain : List Nat) (hiv : iv.length = 8)
    (hk : kp.length = 64) :
    decryptStream kp (encryptStream iv kp plain) = some plain := by
  have hciv : (encryptBlock iv kp).length = 8 := by rw [encryptBlock_length, hiv]
  have henc : (encryptBytes kp (encryptBlock iv kp) plain).length = plain.length :=
    encryptBytes_length kp plain _ hciv
  show decryptStream kp
      (encryptBlock iv kp ++ encryptBytes kp (encryptBlock iv kp) plain) = some plain
  unfold decryptStream
  rw [if_neg (by rw [List.length_append, hciv]; omega)]
  rw [show (encryptBlock iv kp ++ encryptBytes kp (encryptBlock iv kp) plain).take 8
        = encryptBlock iv kp from by rw [← hciv, List.take_left],
      show (encryptBlock iv kp ++ encryptBytes kp (encryptBlock iv kp) plain).drop 8
        = encryptBytes kp (encryptBlock iv kp) plain from by rw [← hciv, List.drop_left]]
  rw [decryptBytes_encryptBytes kp plain _ hciv]

set_option maxRecDepth 10000 in
set_option maxHeartbeats 1000000 in
theorem C1_witness :
    (List.range 8).length = 8 ∧ (List.range 64).length = 64 ∧
      decryptStream (List.range 64)
        (encryptStream (List.range 8) (List.range 64) [10, 20, 30, 40, 50, 60, 70, 80, 90])
        = some [10, 20, 30, 40, 50, 60, 70, 80, 90] :=
  ⟨by decide, by decide,
    C1_stream_roundtrip (List.range 64) (List.range 8) [10, 20, 30, 40, 50, 60, 70, 80, 90]
      (by decide) (by decide)⟩


set_option maxRecDepth 10000 in
/-- Claim C2 counterexample: the claim says the decrypt tail gets no
`decryptBlock` call. On the concrete ciphertext of eight zero bytes
(encrypted IV) followed by the single tail byte 0, with the key whose
whitening mask is `[1,0,0,0,0,0,0,0]`, the code emits `[1]` — the tail HAS
been passed through `decryptBlock` — while the no-transform handling the
claim describes would emit `[0]`. -/
theorem C2_counterexample :
    decryptStream cexKey [0, 0, 0, 0, 0, 0, 0, 0, 0] = some [1] ∧
      decryptTailNoTransform [0, 0, 0, 0, 0, 0, 0, 0] [0] = [0] := by
  constructor
  · decide
  · decide

/-- Claim C2 amended: during decryption a final partial chunk of 1..7 bytes
is XORed with the previous ciphertext block over its length, zero-padded to
8 bytes, then passed through the Block Transform (`decryptBlock` IS applied
to the padded tail, mirroring the encrypt side which applies `encryptBlock`
to its padded tail), and only the original number of bytes of the result is
emitted. -/
theorem C2_amended_tail (kp iv tail : List Nat) (hk : kp.length = 64) (hiv : iv.length = 8)
    (h0 : tail ≠ []) (h8 : tail.length < 8) :
    decryptStream kp (iv ++ tail)
      = some ((decryptBlock (xorBytes tail iv ++ List.replicate (8 - tail.length) 0) kp).take
          tail.length)
    ∧ (decryptBytes kp iv tail).length = tail.length := by
  have htl : 1 ≤ tail.length := by
    rcases tail with _ | ⟨t, ts⟩
    · exact absurd rfl h0
    · simp
  constructor
  · unfold decryptStream
    rw [if_neg (by rw [List.length_append, hiv]; omega)]
    rw [show (iv ++ tail).take 8 = iv from by rw [← hiv, List.take_left],
        show (iv ++ tail).drop 8 = tail from by rw [← hiv, List.drop_left]]
    rw [decryptBytes_tail kp iv tail h0 h8]
  · rw [decryptBytes_tail kp iv tail h0 h8]
    rw [List.length_take, decryptBlock_length]
    simp [xorBytes, List.length_zipWith, hiv]
    omega

set_option maxRecDepth 10000 in
theorem C2_amended_witness :
    decryptStream cexKey ([0, 0, 0, 0, 0, 0, 0, 0] ++ [0])
        = some ((decryptBlock (xorBytes [0] [0, 0, 0, 0, 0, 0, 0, 0] ++ List.replicate 7 0)
            cexKey).take 1)
      ∧ (decryptBytes cexKey [0, 0, 0, 0, 0, 0, 0, 0] [0]).length = 1 :=
  C2_amended_tail cexKey [0, 0, 0, 0, 0, 0, 0, 0] [0] (by decide) (by decide)
    (by decide) (by decide)

/-- Claim C3: for every 8-byte block `B` and 64-byte key `K`,
`decryptBlock (encryptBlock B K) K = B`; the witness instantiates the
claim's concrete example, block `[0,1,2,3,4,5,6,7]` with key `[0..63]`. -/
theorem C3_block_roundtrip (b kp : List Nat) (hb : b.length = 8) (hk : kp.length = 64) :
    decryptBlock (encryptBlock b kp) kp = b := by
  obtain ⟨a0, a1, a2, a3, a4, a5, a6, a7, rfl⟩ := exists8 b hb
  simp [encryptBlock_eq_mask, decryptBlock_eq_mask, xorBytes, mask_eq,
        Nat.xor_assoc, Nat.xor_comm, xor_left_comm, Nat.xor_self, Nat.xor_zero, Nat.zero_xor,
        Nat.xor_cancel_left, Nat.xor_cancel_right]

set_option maxRecDepth 10000 in
set_option maxHeartbeats 1000000 in
theorem C3_witness :
    ([0, 1, 2, 3, 4, 5, 6, 7] : List Nat).length = 8 ∧ (List.range 64).length = 64 ∧
      decryptBlock (encryptBlock [0, 1, 2, 3, 4, 5, 6, 7] (List.range 64)) (List.range 64)
        = [0, 1, 2, 3, 4, 5, 6, 7] :=
  ⟨by decide, by decide,
    C3_block_roundtrip [0, 1, 2, 3, 4, 5, 6, 7] (List.range 64) (by decide) (by decide)⟩

/-- The full-block arm of `decryptBytes` as an equation. -/
theorem decryptBytes_cons8 (kp prev : List Nat) (b0 b1 b2 b3 b4 b5 b6 b7 : Nat)
    (rest : List Nat) :
    decryptBytes kp prev (b0 :: b1 :: b2 :: b3 :: b4 :: b5 :: b6 :: b7 :: rest)
      = decryptBlock (xorBytes [b0,b1,b2,b3,b4,b5,b6,b7] prev) kp ++
          decryptBytes kp [b0,b1,b2,b3,b4,b5,b6,b7] rest := rfl

/-- Claim C5: for each full 8-byte ciphertext chunk after the IV block, the
emitted plaintext block equals the Decrypt-transform of that chunk XORed
byte-wise with the previous untransformed ciphertext block, and the loop
continues with the untransformed just-read chunk as the new chain state.
(The code computes `decryptBlock (chunk XOR prev)`; because the transform
is a fixed XOR, this value equals `decryptBlock chunk XOR prev`.) -/
theorem C5_full_block_step (kp prev chunk rest : List Nat) (hk : kp.length = 64)
    (hp : prev.length = 8) (hc : chunk.length = 8) :
    decryptBytes kp prev (chunk ++ rest)
      = xorBytes (decryptBlock chunk kp) prev ++ decryptBytes kp chunk rest := by
  obtain ⟨c0, c1, c2, c3, c4, c5, c6, c7, rfl⟩ := exists8 chunk hc
  obtain ⟨v0, v1, v2, v3, v4, v5, v6, v7, rfl⟩ := exists8 prev hp
  rw [List.cons_append, List.cons_append, List.cons_append, List.cons_append, List.cons_append,
      List.cons_append, List.cons_append, List.cons_append, List.nil_append]
  rw [decryptBytes_cons8]
  have h1 : decryptBlock (xorBytes [c0,c1,c2,c3,c4,c5,c6,c7] [v0,v1,v2,v3,v4,v5,v6,v7]) kp
      = xorBytes (decryptBlock [c0,c1,c2,c3,c4,c5,c6,c7] kp) [v0,v1,v2,v3,v4,v5,v6,v7] := by
    simp [decryptBlock_eq_mask, xorBytes, mask_eq,
          Nat.xor_assoc, Nat.xor_comm, xor_left_comm]
  rw [h1]

set_option maxRecDepth 10000 in
set_option maxHeartbeats 1000000 in
theorem C5_witness :
    (List.range 64).length = 64 ∧ (List.replicate 8 0 : List Nat).length = 8 ∧
      ([1, 2, 3, 4, 5, 6, 7, 8] : List Nat).length = 8 ∧
      decryptBytes (List.range 64) (List.replicate 8 0) ([1, 2, 3, 4, 5, 6, 7, 8] ++ [9])
        = xorBytes (decryptBlock [1, 2, 3, 4, 5, 6, 7, 8] (List.range 64)) (List.replicate 8 0) ++
            decryptBytes (List.range 64) [1, 2, 3, 4, 5, 6, 7, 8] [9] :=
  ⟨by decide, by decide, by decide,
    C5_full_block_step (List.range 64) (List.replicate 8 0) [1, 2, 3, 4, 5, 6, 7, 8] [9]
      (by decide) (by decide) (by decide)⟩


/-- Claim C6: with no I/O error, the ciphertext stream has length exactly
`8 + 8*(len(P)/8) + len(P) % 8 = len(P) + 8`: an 8-byte encrypted IV first,
then the data blocks with no extra padding bytes emitted. -/
theorem C6_length_framing (iv kp plain : List Nat) (hiv : iv.length = 8) (hk : kp.length = 64) :
    (encryptStream iv kp plain).length = 8 + 8 * (plain.length / 8) + plain.length % 8
    ∧ (encryptStream iv kp plain).length = plain.length + 8
    ∧ (encryptStream iv kp plain).take 8 = encryptBlock iv kp := by
  have hciv : (encryptBlock iv kp).length = 8 := by rw [encryptBlock_length, hiv]
  have hlen : (encryptStream iv kp plain).length = 8 + plain.length := by
    show (encryptBlock iv kp ++ encryptBytes kp (encryptBlock iv kp) plain).length
      = 8 + plain.length
    rw [List.length_append, hciv, encryptBytes_length kp plain _ hciv]
  have hmod := Nat.div_add_mod plain.length 8
  refine ⟨by omega, by omega, ?_⟩
  show (encryptBlock iv kp ++ encryptBytes kp (encryptBlock iv kp) plain).take 8
    = encryptBlock iv kp
  rw [← hciv, List.take_left]

set_option maxRecDepth 10000 in
set_option maxHeartbeats 1000000 in
theorem C6_witness :
    (List.range 8).length = 8 ∧ (List.range 64).length = 64 ∧
      (encryptStream (List.range 8) (List.range 64) [1, 2, 3, 4, 5, 6, 7, 8, 9, 10]).length
        = 8 + 8 * (10 / 8) + 10 % 8 :=
  ⟨by decide, by decide,
    (C6_length_framing (List.range 8) (List.range 64) [1, 2, 3, 4, 5, 6, 7, 8, 9, 10]
      (by decide) (by decide)).1⟩

/-- Claim C7: for every argument vector of accepted size whose selected key
does not have length exactly 64, `main` stops with the key-length error —
for both the encrypt and the decrypt path — before any stream function is
invoked, hence before any byte of input is read (`MainOutcome.run` is the
only outcome that performs stream I/O). -/
theorem C7_key_length_rejected (argv : List (List Char))
    (hargs : argv.length = 2 ∨ argv.length = 3)
    (hkey : (flagLoop argv.length (argv.drop 1) [] false).2.length ≠ 64) :
    mainModel argv = MainOutcome.keyLengthError := by
  have hrange : ¬ (argv.length < 2 ∨ 3 < argv.length) := by rcases hargs with h | h <;> omega
  unfold mainModel
  rw [if_neg hrange]
  exact if_pos hkey

theorem C7_witness :
    (([['c'], ['-', 'd'], ['k']] : List (List Char)).length = 2 ∨
        ([['c'], ['-', 'd'], ['k']] : List (List Char)).length = 3) ∧
      (flagLoop ([['c'], ['-', 'd'], ['k']] : List (List Char)).length
          (([['c'], ['-', 'd'], ['k']] : List (List Char)).drop 1) [] false).2.length ≠ 64 ∧
      mainModel [['c'], ['-', 'd'], ['k']] = MainOutcome.keyLengthError :=
  ⟨Or.inr (by decide), by decide,
    C7_key_length_rejected [['c'], ['-', 'd'], ['k']] (Or.inr (by decide)) (by decide)⟩


/-- Claim C8: the Encrypt block transform performs, for rounds r = 0..15
and half-indices i = 0..3 in order, `t = right[i]; right[i] = left[i] XOR
RoundFunction(right[i], key[r*4+i]); left[i] = t`, with `RoundFunction`
returning the key byte and ignoring its first argument — i.e. `encryptBlock`
agrees with the spec-side `encryptBlockSpec` built from exactly those
words. -/
theorem C8_encrypt_round_structure (b kp : List Nat) (hb : b.length = 8)
    (hk : kp.length = 64) :
    encryptBlock b kp = encryptBlockSpec b kp := by
  obtain ⟨a0, a1, a2, a3, a4, a5, a6, a7, rfl⟩ := exists8 b hb
  exact (encryptBlockSpec_lit a0 a1 a2 a3 a4 a5 a6 a7 kp).symm

set_option maxRecDepth 10000 in
set_option maxHeartbeats 1000000 in
theorem C8_witness :
    ([3, 1, 4, 1, 5, 9, 2, 6] : List Nat).length = 8 ∧ (List.range 64).length = 64 ∧
      encryptBlock [3, 1, 4, 1, 5, 9, 2, 6] (List.range 64)
        = encryptBlockSpec [3, 1, 4, 1, 5, 9, 2, 6] (List.range 64) :=
  ⟨by decide, by decide,
    C8_encrypt_round_structure [3, 1, 4, 1, 5, 9, 2, 6] (List.range 64) (by decide) (by decide)⟩

/-- Claim C9: if the entropy source cannot supply exactly 8 IV bytes (the
source cannot be opened, or the read returns a different byte count), the
encryption fails with -1 before any output byte is written (the write list
is empty). -/
theorem C9_entropy_failure (openOk : Bool) (ivRead kp plain : List Nat) (wr : Nat → Int)
    (h : openOk = false ∨ ivRead.length ≠ 8) :
    encryptStreamWrites openOk ivRead kp plain wr = (-1, []) := by
  unfold encryptStreamWrites
  rw [if_pos h]

theorem C9_witness :
    ((false = false ∨ ([] : List Nat).length ≠ 8) ∧
        encryptStreamWrites false [] (List.range 64) [1, 2, 3] (fun _ => 8) = (-1, [])) ∧
      ((true = false ∨ ([0, 0, 0] : List Nat).length ≠ 8) ∧
        encryptStreamWrites true [0, 0, 0] (List.range 64) [1, 2, 3] (fun _ => 8) = (-1, [])) :=
  ⟨⟨Or.inl rfl, C9_entropy_failure false [] (List.range 64) [1, 2, 3] (fun _ => 8) (Or.inl rfl)⟩,
    ⟨Or.inr (by decide),
      C9_entropy_failure true [0, 0, 0] (List.range 64) [1, 2, 3] (fun _ => 8)
        (Or.inr (by decide))⟩⟩

/-- Claim C10: because the round function ignores its data argument,
`encryptBlock` and `decryptBlock` compute the same function: both equal
`B XOR M(K)` where `M(K)`'s left half is the XOR of the even-round key
slices and right half the XOR of the odd-round key slices (`maskSpec`);
consequently the block transform is an involution. -/
theorem C10_mask_refinement (b kp : List Nat) (hb : b.length = 8) (hk : kp.length = 64) :
    encryptBlock b kp = decryptBlock b kp
    ∧ encryptBlock b kp = xorBytes b (maskSpec kp)
    ∧ encryptBlock (encryptBlock b kp) kp = b := by
  obtain ⟨a0, a1, a2, a3, a4, a5, a6, a7, rfl⟩ := exists8 b hb
  refine ⟨?_, ?_, ?_⟩
  · rw [encryptBlock_eq_mask, decryptBlock_eq_mask]
  · rw [encryptBlock_eq_mask, maskSpec_eq_mask]
  · simp [encryptBlock_eq_mask, xorBytes, mask_eq,
          Nat.xor_assoc, Nat.xor_comm, xor_left_comm, Nat.xor_self, Nat.xor_zero, Nat.zero_xor,
          Nat.xor_cancel_left, Nat.xor_cancel_right]

set_option maxRecDepth 10000 in
set_option maxHeartbeats 1000000 in
theorem C10_witness :
    ([7, 7, 7, 7, 0, 0, 0, 0] : List Nat).length = 8 ∧ cexKey.length = 64 ∧
      encryptBlock [7, 7, 7, 7, 0, 0, 0, 0] cexKey = decryptBlock [7, 7, 7, 7, 0, 0, 0, 0] cexKey :=
  ⟨by decide, by decide,
    (C10_mask_refinement [7, 7, 7, 7, 0, 0, 0, 0] cexKey (by decide) (by decide)).1⟩


set_option maxRecDepth 10000 in
/-- Claim C4 counterexample: the initial encrypted-IV write is NOT checked
by the code. With an oracle making every write return 0 (a short write: 0
of the expected 8 bytes), encrypting an empty plaintext still returns 0
(success), not the failure signal -1. -/
theorem C4_counterexample :
    (fun _ : Nat => (0 : Int)) 0 ≠ 8 ∧
      (encryptStreamWrites true (List.replicate 8 0) (List.replicate 64 0) []
          (fun _ => 0)).1 = 0 ∧
      (0 : Int) ≠ -1 := by
  refine ⟨by decide, ?_, by decide⟩
  decide

/-- Claim C4 amended: a short write aborts the stream operation with -1 for
the encrypt full-block loop (result not equal to 8) and for both final-partial
writes (result not equal to the tail byte count), with exactly the aborting
write performed by the loop; however the initial encrypted-IV write's return
value is ignored (the outcome depends only on the oracle at indices from 1),
and the decrypt full-block loop aborts only when its write returns -1, not
on short positive transfers. -/
theorem C4_amended_write_handling :
    (∀ (kp : List Nat) (wr : Nat → Int) (wi : Nat) (prev input : List Nat) (n : Nat),
        8 ≤ input.length → wr wi ≠ 8 →
        (encryptLoopWrites kp wr wi prev input n).1 = -1 ∧
          (encryptLoopWrites kp wr wi prev input n).2.length = 1)
    ∧ (∀ (kp : List Nat) (wr : Nat → Int) (wi : Nat) (prev input : List Nat) (n : Nat),
        input ≠ [] → input.length < 8 → wr wi ≠ (input.length : Int) →
        (encryptLoopWrites kp wr wi prev input n).1 = -1)
    ∧ (∀ (kp : List Nat) (wr : Nat → Int) (wi : Nat) (prev input : List Nat) (n : Nat),
        8 ≤ input.length → wr wi = -1 →
        (decryptLoopWrites kp wr wi prev input n).1 = -1 ∧
          (decryptLoopWrites kp wr wi prev input n).2.length = 1)
    ∧ (∀ (kp : List Nat) (wr : Nat → Int) (wi : Nat) (prev input : List Nat) (n : Nat),
        input ≠ [] → input.length < 8 → wr wi ≠ (input.length : Int) →
        (decryptLoopWrites kp wr wi prev input n).1 = -1)
    ∧ (∀ (openOk : Bool) (iv kp plain : List Nat) (wr wr' : Nat → Int),
        (∀ j, 1 ≤ j → wr j = wr' j) →
        encryptStreamWrites openOk iv kp plain wr
          = encryptStreamWrites openOk iv kp plain wr') := by
  refine ⟨?_, ?_, ?_, ?_, ?_⟩
  · intro kp wr wi prev input n h8 hw
    exact encryptLoopWrites_block_abort kp wr wi prev input n h8 hw
  · intro kp wr wi prev input n h0 h8 hw
    rw [encryptLoopWrites_tail kp wr wi prev input n h0 h8, if_pos hw]
  · intro kp wr wi prev input n h8 hw
    exact decryptLoopWrites_block_abort kp wr wi prev input n h8 hw
  · intro kp wr wi prev input n h0 h8 hw
    rw [decryptLoopWrites_tail kp wr wi prev input n h0 h8, if_pos hw]
  · intro openOk iv kp plain wr wr' h
    unfold encryptStreamWrites
    by_cases hfail : openOk = false ∨ iv.length ≠ 8
    · rw [if_pos hfail, if_pos hfail]
    · rw [if_neg hfail, if_neg hfail]
      show ((encryptLoopWrites kp wr 1 (encryptBlock iv kp) plain 0).1,
            encryptBlock iv kp :: (encryptLoopWrites kp wr 1 (encryptBlock iv kp) plain 0).2) =
          ((encryptLoopWrites kp wr' 1 (encryptBlock iv kp) plain 0).1,
            encryptBlock iv kp :: (encryptLoopWrites kp wr' 1 (encryptBlock iv kp) plain 0).2)
      rw [encryptLoopWrites_congr kp wr wr' plain 1 (encryptBlock iv kp) 0 (fun j hj => h j hj)]

theorem C4_amended_witness :
    ((encryptLoopWrites (List.replicate 64 0) (fun _ => 0) 0 (List.replicate 8 0)
        (List.replicate 8 0) 0).1 = -1 ∧
      (encryptLoopWrites (List.replicate 64 0) (fun _ => 0) 0 (List.replicate 8 0)
        (List.replicate 8 0) 0).2.length = 1) ∧
    (decryptLoopWrites (List.replicate 64 0) (fun _ => -1) 0 (List.replicate 8 0)
        (List.replicate 8 0) 0).1 = -1 :=
  ⟨C4_amended_write_handling.1 (List.replicate 64 0) (fun _ => 0) 0 (List.replicate 8 0)
      (List.replicate 8 0) 0 (by decide) (by decide),
    (C4_amended_write_handling.2.2.1 (List.replicate 64 0) (fun _ => -1) 0 (List.replicate 8 0)
      (List.replicate 8 0) 0 (by decide) (by decide)).1⟩

end Arethusa
